import Mathlib

/-!
Verification development for the smtptunnel repository.

This file gives a shallow embedding, in Lean 4, of the core pure logic of
the Go sources under `src/`:

* `internal/crypto/crypto.go` — auth-token generation/verification and the
  HKDF key schedule (`GenerateAuthToken`, `VerifyAuthToken`, `deriveKeys`);
* `internal/smtp/handshake.go` — the line-matching predicates of the cover
  handshake (`ServerHandshake` / `ClientHandshake`);
* `internal/tunnel/server.go` — the server session engine
  (`handleConnect`, `handleData`, `closeChannel`, `channelReader`);
* `internal/tunnel/client.go` — the client engine (`OpenChannel` id
  allocation, `handleFrame` DATA dispatch, `CloseChannel`);
* `cmd/client/main.go` — the supervisor reconnect backoff of `cmdRun`.

Go byte slices and strings are modelled as `List Nat` (a Go `string` is a
byte slice; all comparisons in the sources are byte comparisons).  Machine
integers are modelled as `Nat`/`Int` with explicit reductions modulo
2^16 / 2^32 where the Go code truncates.  Side effects of the session
engines (frames written, sockets dialled or closed) are recorded as
explicit effect traces; external library primitives (HMAC-SHA256, HKDF)
are abstracted as function parameters, since their internals are not part
of this repository.
-/

namespace SmtpTunnel

/-- ASCII byte string of a Lean string literal (all literals used in the
sources are ASCII, so `Char.toNat` is the byte value). -/
def strBytes (s : String) : List Nat := s.toList.map Char.toNat

/-! ## Frame model (`internal/proto`, wire format per TECHNICAL.md §Frame Format)

The `internal/proto` package itself is not among the provided sources; the
frame record and the CONNECT-payload codec are modelled from the spec
(§3 DATA MODEL, §4.1 Frame codec). -/

/-- A protocol frame: 1-byte type, 2-byte channel id, length-prefixed payload. -/
structure Frame where
  type : Nat
  channelID : Nat
  payload : List Nat
  deriving Repr, DecidableEq

def frameData : Nat := 0x01
/-- Modelled from the spec: `internal/proto`'s `MakeConnectPayload`
(spec §3 CONNECT payload: host-length byte, host bytes, 2-byte port). -/
def makeConnectPayload (host : List Nat) (port : Nat) : List Nat :=
  host.length :: host ++ [port / 256 % 256, port % 256]

/-! ## Effect traces

Side effects performed by the session engines, in program order. -/

inductive Effect where
  /-- A frame written to the shared transport (`writer.WriteFrame`). -/
  | sendFrame (f : Frame)
  /-- An outbound TCP dial attempt (`net.DialTimeout`). -/
  | dialAttempt (host : List Nat) (port : Nat)
  /-- Insertion of a channel into the channel table. -/
  | insertChannel (id : Nat)
  /-- Spawning of the per-channel read pump (`go s.channelReader(ch)`). -/
  | spawnReader (id : Nat)
  /-- Bytes written to a channel's bound socket (`ch.conn.Write`). -/
  | writeSocket (id : Nat) (data : List Nat)
  /-- Setting a channel's closed flag. -/
  | markClosed (id : Nat)
  /-- Closing a channel's bound socket (`ch.conn.Close`). -/
  | closeSocket (id : Nat)
  deriving Repr, DecidableEq

/-! ## Server session engine (`internal/tunnel/server.go`) -/

/-- A server-side channel record (`type channel struct`, server.go). -/
structure SChannel where
  id : Nat
  host : List Nat
  port : Nat
  closed : Bool
  deriving Repr, DecidableEq

/-- The channel table of a server session (`channels map[uint16]*channel`). -/
def ChanTable := Nat → Option SChannel

/-- `serverSession.closeChannel` (server.go:258-273): look the id up; absent
ids are a no-op; otherwise remove the entry, set the closed flag and close
the bound socket. -/
def closeChannel (t : ChanTable) (id : Nat) : ChanTable × List Effect :=
  match t id with
  | none => (t, [])
  | some _ => (Function.update t id none, [.markClosed id, .closeSocket id])

/-- `serverSession.handleData` (server.go:233-252): unknown or closed
channels discard the frame silently; otherwise the payload is written to the
bound socket, and a write error closes the channel locally.  `writeOk` is
the oracle for the socket write result. -/
def handleData (writeOk : Bool) (t : ChanTable) (f : Frame) : ChanTable × List Effect :=
  match t f.channelID with
  | none => (t, [])
  | some ch =>
    if ch.closed then (t, [])
    else if writeOk then (t, [.writeSocket f.channelID f.payload])
    else
      let r := closeChannel t f.channelID
      (r.1, .writeSocket f.channelID f.payload :: r.2)

/-- A client-side channel record (`type clientChannel struct`, client.go). -/
structure CChannel where
  id : Nat
  closed : Bool
  deriving Repr, DecidableEq

/-- The client channel map (`channels map[uint16]*clientChannel`). -/
def CChanTable := Nat → Option CChannel

/-- The id allocation step of `Client.OpenChannel` (client.go:147-150).
State is the `nextChanID` uint32 counter; `atomic.AddUint32(&c.nextChanID,1)-1`
yields the old counter value truncated to 16 bits, and a result of 0 is
retried exactly once.  Returns (new counter, allocated id). -/
def allocChanID (next : Nat) : Nat × Nat :=
  let id := next % 65536
  let next1 := (next + 1) % 4294967296
  if id = 0 then ((next1 + 1) % 4294967296, next1 % 65536)
  else (next1, id)

/-- The ids returned by `k` successive `OpenChannel` allocations starting
from counter state `st` (`NewClient` initialises the counter to 1). -/
def allocIds : Nat → Nat → List Nat
  | _, 0 => []
  | st, k + 1 =>
    let r := allocChanID st
    r.2 :: allocIds r.1 k

/-- The DATA case of `Client.handleFrame` (client.go:120-126): frames for
unknown or closed channels are discarded silently; otherwise the payload is
written to the registered local socket (write errors are ignored). -/
def clientHandleData (t : CChanTable) (f : Frame) : CChanTable × List Effect :=
  match t f.channelID with
  | none => (t, [])
  | some cc =>
    if cc.closed then (t, [])
    else (t, [.writeSocket f.channelID f.payload])

/-- `Client.CloseChannel` (client.go:208-220): remove the id from the map if
present; when it was present, set the closed flag and close the local
socket; otherwise do nothing. -/
def clientCloseChannel (t : CChanTable) (id : Nat) : CChanTable × List Effect :=
  match t id with
  | none => (t, [])
  | some _ => (Function.update t id none, [.markClosed id, .closeSocket id])

/-! ## Supervisor backoff (`cmd/client/main.go`, `cmdRun`) -/

/-- One connect attempt outcome seen by the supervisor loop. -/
inductive Outcome where
  | fail
  | success
  deriving Repr, DecidableEq

/-- One iteration of the `cmdRun` supervisor loop (main.go:144-158).  On a
failed connect it sleeps the current delay, doubles it and clamps at
`maxd`; on a successful connect it resets the delay to `init` and sleeps
nothing.  Returns (new current delay, sleeps performed). -/
def supStep (init maxd cur : Nat) : Outcome → Nat × List Nat
  | .fail => (if cur * 2 > maxd then maxd else cur * 2, [cur])
  | .success => (init, [])

/-- The sleeps performed by the supervisor over a sequence of connect
outcomes, starting from current delay `cur` (initially `init`). -/
def supRun (init maxd cur : Nat) : List Outcome → List Nat
  | [] => []
  | o :: rest =>
    let r := supStep init maxd cur o
    r.2 ++ supRun init maxd r.1 rest

/-! ## Handshake line matching (`internal/smtp/handshake.go`) -/

/-- Bytewise ASCII upper-casing; on the ASCII lines compared against ASCII
verb literals in `ServerHandshake` this coincides with Go's
`strings.ToUpper`. -/
def asciiUpper (b : Nat) : Nat := if 97 ≤ b ∧ b ≤ 122 then b - 32 else b

/-- `strings.ToUpper` on a byte string (ASCII fragment). -/
def strUpper (s : List Nat) : List Nat := s.map asciiUpper

/-- The EHLO-step acceptance of `ServerHandshake` (handshake.go:48-51 and
99-102): the upper-cased line must start with EHLO or HELO. -/
def serverExpectEhlo (line : List Nat) : Bool :=
  (strBytes "EHLO").isPrefixOf (strUpper line) || (strBytes "HELO").isPrefixOf (strUpper line)

/-- The STARTTLS-step acceptance of `ServerHandshake` (handshake.go:64):
the upper-cased line must equal STARTTLS. -/
def serverExpectStarttls (line : List Nat) : Bool :=
  strUpper line == strBytes "STARTTLS"

/-- The AUTH-step acceptance of `ServerHandshake` (handshake.go:113): the
upper-cased line must start with AUTH. -/
def serverExpectAuth (line : List Nat) : Bool :=
  (strBytes "AUTH").isPrefixOf (strUpper line)

/-- The BINARY-step acceptance of `ServerHandshake` (handshake.go:137):
the line must equal BINARY exactly, with no case folding. -/
def serverExpectBinary (line : List Nat) : Bool :=
  line == strBytes "BINARY"

/-- The client-side `expect` closure of `ClientHandshake`
(handshake.go:168-177): the reply line must start with the expected
byte-exact code, with no case folding. -/
def clientExpectCode (code line : List Nat) : Bool :=
  code.isPrefixOf line

/-- ASCII case-equivalence of two bytes: equal, or an upper/lower pair of
the same ASCII letter. -/
def byteCaseEq (a b : Nat) : Bool :=
  a == b || ((65 ≤ a && a ≤ 90) && b == a + 32) || ((65 ≤ b && b ≤ 90) && a == b + 32)

/-- ASCII case-equivalence of two byte strings (same length, bytes pairwise
equal up to ASCII letter case). -/
def strCaseEq : List Nat → List Nat → Bool
  | [], [] => true
  | x :: xs, y :: ys => byteCaseEq x y && strCaseEq xs ys
  | _, _ => false

/-! ## Auth tokens (`internal/crypto/crypto.go`)

`GenerateAuthToken`/`VerifyAuthToken` use the Go standard library's base64
std-encoding, `strconv.ParseInt` and `strings.SplitN`, embedded below, and
HMAC-SHA256 from `crypto/hmac`, abstracted as a `mac` function parameter
(secret and message to digest). -/

/-- The standard base64 alphabet (index 0-63 to ASCII byte). -/
def b64Char (n : Nat) : Nat :=
  if n < 26 then 65 + n
  else if n < 52 then 97 + (n - 26)
  else if n < 62 then 48 + (n - 52)
  else if n = 62 then 43 else 47

/-- Inverse of the standard base64 alphabet (ASCII byte to index). -/
def b64DecChar (c : Nat) : Option Nat :=
  if 65 ≤ c ∧ c ≤ 90 then some (c - 65)
  else if 97 ≤ c ∧ c ≤ 122 then some (c - 97 + 26)
  else if 48 ≤ c ∧ c ≤ 57 then some (c - 48 + 52)
  else if c = 43 then some 62
  else if c = 47 then some 63
  else none

/-- `base64.StdEncoding.EncodeToString`: 3 input bytes to 4 alphabet bytes,
with '=' (61) padding for a 1- or 2-byte tail. -/
def b64Encode : List Nat → List Nat
  | [] => []
  | [a] => [b64Char (a / 4), b64Char (a % 4 * 16), 61, 61]
  | [a, b] => [b64Char (a / 4), b64Char (a % 4 * 16 + b / 16), b64Char (b % 16 * 4), 61]
  | a :: b :: c :: rest =>
    b64Char (a / 4) :: b64Char (a % 4 * 16 + b / 16) :: b64Char (b % 16 * 4 + c / 64) ::
      b64Char (c % 64) :: b64Encode rest

/-- `base64.StdEncoding.DecodeString`: 4 alphabet bytes to 3 output bytes;
padding is accepted only as the final one or two bytes of the input; any
byte outside the alphabet, or a leftover group of fewer than 4 bytes, is an
error (`none`). -/
def b64Decode : List Nat → Option (List Nat)
  | [] => some []
  | c1 :: c2 :: c3 :: c4 :: rest =>
    match b64DecChar c1, b64DecChar c2 with
    | some n1, some n2 =>
      if c3 = 61 then
        if c4 = 61 ∧ rest = [] then some [n1 * 4 + n2 / 16] else none
      else
        match b64DecChar c3 with
        | some n3 =>
          if c4 = 61 then
            if rest = [] then some [n1 * 4 + n2 / 16, n2 % 16 * 16 + n3 / 4] else none
          else
            match b64DecChar c4 with
            | some n4 =>
              match b64Decode rest with
              | some ds =>
                some ((n1 * 4 + n2 / 16) :: (n2 % 16 * 16 + n3 / 4) :: (n3 % 4 * 64 + n4) :: ds)
              | none => none
            | none => none
        | none => none
    | _, _ => none
  | _ => none

/-- ASCII decimal digits of a natural number, most significant first. -/
def natDigits (n : Nat) : List Nat :=
  if n < 10 then [48 + n]
  else natDigits (n / 10) ++ [48 + n % 10]
termination_by n
decreasing_by exact Nat.div_lt_self (by omega) (by omega)

/-- `fmt.Sprintf("%d", i)` for an int64: optional '-' (45) then decimal
digits. -/
def renderInt (i : Int) : List Nat :=
  if i < 0 then 45 :: natDigits (-i).toNat else natDigits i.toNat

/-- Value of an ASCII digit string (accumulator form, as `strconv` does). -/
def digitsVal (l : List Nat) : Nat := l.foldl (fun acc d => acc * 10 + (d - 48)) 0

def isDigit (d : Nat) : Bool := 48 ≤ d && d ≤ 57

/-- `strconv.ParseInt(s, 10, 64)`: optional sign, a non-empty run of
decimal digits and nothing else, value within the signed 64-bit range
(out-of-range input is an error, which `VerifyAuthToken` treats as
failure). -/
def parseIntDigits (neg : Bool) (ds : List Nat) : Option Int :=
  if ds = [] then none
  else if ds.all isDigit then
    let v : Int := if neg then -(digitsVal ds : Int) else (digitsVal ds : Int)
    if -(2 ^ 63) ≤ v ∧ v ≤ 2 ^ 63 - 1 then some v else none
  else none

def parseIntGo (l : List Nat) : Option Int :=
  match l with
  | [] => none
  | c :: _ =>
    if c = 45 then parseIntDigits true l.tail
    else if c = 43 then parseIntDigits false l.tail
    else parseIntDigits false l

/-- Split at the first occurrence of `sep`, if any. -/
def splitOnce (sep : Nat) : List Nat → Option (List Nat × List Nat)
  | [] => none
  | c :: rest =>
    if c = sep then some ([], rest)
    else
      match splitOnce sep rest with
      | none => none
      | some (a, b) => some (c :: a, b)

/-- `strings.SplitN(s, sep, 3)`: up to three parts, the last keeping any
further separators. -/
def splitN3 (sep : Nat) (l : List Nat) : List (List Nat) :=
  match splitOnce sep l with
  | none => [l]
  | some (a, r1) =>
    match splitOnce sep r1 with
    | none => [a, r1]
    | some (b, r2) => [a, b, r2]

/-- The HMAC input of `GenerateAuthToken` (crypto.go:112):
"smtp-tunnel-auth:" then the username, ':' and the decimal timestamp. -/
def authMsg (username : List Nat) (ts : Int) : List Nat :=
  strBytes "smtp-tunnel-auth:" ++ username ++ [58] ++ renderInt ts

/-- `GenerateAuthToken` (crypto.go:111-118): base64 of
`username:timestamp:base64(mac(secret, authMsg))`. -/
def generateAuthToken (mac : List Nat → List Nat → List Nat)
    (secret username : List Nat) (ts : Int) : List Nat :=
  b64Encode (username ++ [58] ++ renderInt ts ++ [58] ++
    b64Encode (mac secret (authMsg username ts)))

/-- Wrapping of an integer into the signed 64-bit range, as Go's int64
arithmetic does on overflow. -/
def int64Wrap (i : Int) : Int := (i + 2 ^ 63) % 2 ^ 64 - 2 ^ 63

/-- `VerifyAuthToken` (crypto.go:122-157): base64-decode, split on the
first two ':' into exactly three parts, parse the timestamp, reject when
its distance to `now` exceeds `maxAge`, look the username up, regenerate
the expected wire token with the stored secret and compare; every failure
returns `(false, "")`.  The subtraction `now - timestamp` is Go int64
arithmetic, so it wraps (`int64Wrap`); the float `math.Abs(float64 ...)`
test then coincides with the exact integer comparison on the wrapped
difference for any `maxAge` below 2^52, in particular at the mandated
`maxAge = 300` (float64 is exact below 2^53, and larger magnitudes stay
above any such bound after rounding). -/
def verifyAuthToken (mac : List Nat → List Nat → List Nat) (token : List Nat)
    (users : List Nat → Option (List Nat)) (maxAge now : Int) : Bool × List Nat :=
  match b64Decode token with
  | none => (false, [])
  | some decoded =>
    match splitN3 58 decoded with
    | [username, tsStr, _macPart] =>
      match parseIntGo tsStr with
      | none => (false, [])
      | some ts =>
        if ((int64Wrap (now - ts)).natAbs : Int) > maxAge then (false, [])
        else
          match users username with
          | none => (false, [])
          | some secret =>
            if token = generateAuthToken mac secret username ts then (true, username)
            else (false, [])
    | _ => (false, [])

/-! ## Key schedule (`internal/crypto/crypto.go`, `deriveKeys`) -/

/-- The key-holding part of `TunnelCrypto` (crypto.go:23-30; the AEAD
sequence counters belong to `Encrypt`/`Decrypt`, which are outside the
claims). -/
structure TunnelCrypto where
  secret : List Nat
  sendKey : List Nat
  recvKey : List Nat
  isServer : Bool
  deriving Repr, DecidableEq

/-- `NewTunnelCrypto`/`deriveKeys` (crypto.go:34-64): derive 64 bytes of key
material by HKDF-SHA256 with salt "smtp-tunnel-v1" and info "tunnel-keys";
the first 32 bytes are the client-to-server key, the last 32 the
server-to-client key; the server binds send to server-to-client, the client
the other way round.  `hkdf64` abstracts the external HKDF-SHA256 expansion
(arguments: ikm, salt, info), whose output `io.ReadFull` reads 64 bytes of. -/
def deriveKeys (hkdf64 : List Nat → List Nat → List Nat → List Nat)
    (secret : List Nat) (isServer : Bool) : TunnelCrypto :=
  let km := hkdf64 secret (strBytes "smtp-tunnel-v1") (strBytes "tunnel-keys")
  let c2sKey := km.take 32
  let s2cKey := km.drop 32
  if isServer then ⟨secret, s2cKey, c2sKey, true⟩ else ⟨secret, c2sKey, s2cKey, false⟩

/-! ## Helper lemmas -/

theorem b64Char_lt_256 (n : Nat) : b64Char n < 256 := by
  unfold b64Char; split_ifs <;> omega

theorem b64DecChar_b64Char : ∀ n < 64, b64DecChar (b64Char n) = some n := by decide

theorem b64Char_ne_61 : ∀ n < 64, b64Char n ≠ 61 := by decide

/-- Standard base64 decoding inverts encoding on byte inputs. -/
theorem b64_roundtrip : ∀ (l : List Nat), (∀ x ∈ l, x < 256) →
    b64Decode (b64Encode l) = some l
  | [] => fun _ => rfl
  | [a] => fun h => by
    have ha : a < 256 := h a (by simp)
    have h1 := b64DecChar_b64Char (a / 4) (by omega)
    have h2 := b64DecChar_b64Char (a % 4 * 16) (by omega)
    show b64Decode [b64Char (a / 4), b64Char (a % 4 * 16), 61, 61] = some [a]
    simp [b64Decode, h1, h2]
    all_goals omega
  | [a, b] => fun h => by
    have ha : a < 256 := h a (by simp)
    have hb : b < 256 := h b (by simp)
    have h1 := b64DecChar_b64Char (a / 4) (by omega)
    have h2 := b64DecChar_b64Char (a % 4 * 16 + b / 16) (by omega)
    have h3 := b64DecChar_b64Char (b % 16 * 4) (by omega)
    have hne := b64Char_ne_61 (b % 16 * 4) (by omega)
    show b64Decode
        [b64Char (a / 4), b64Char (a % 4 * 16 + b / 16), b64Char (b % 16 * 4), 61] = some [a, b]
    simp [b64Decode, h1, h2, h3, if_neg hne]
    all_goals omega
  | a :: b :: c :: d :: rest => fun h => by
    have ha : a < 256 := h a (by simp)
    have hb : b < 256 := h b (by simp)
    have hc : c < 256 := h c (by simp)
    have ih := b64_roundtrip (d :: rest) (fun x hx => h x (by simp [List.mem_cons] at hx ⊢; tauto))
    have h1 := b64DecChar_b64Char (a / 4) (by omega)
    have h2 := b64DecChar_b64Char (a % 4 * 16 + b / 16) (by omega)
    have h3 := b64DecChar_b64Char (b % 16 * 4 + c / 64) (by omega)
    have h4 := b64DecChar_b64Char (c % 64) (by omega)
    have hne3 := b64Char_ne_61 (b % 16 * 4 + c / 64) (by omega)
    have hne4 := b64Char_ne_61 (c % 64) (by omega)
    show b64Decode (b64Char (a / 4) :: b64Char (a % 4 * 16 + b / 16) ::
        b64Char (b % 16 * 4 + c / 64) :: b64Char (c % 64) :: b64Encode (d :: rest)) =
      some (a :: b :: c :: d :: rest)
    simp [b64Decode, h1, h2, h3, h4, if_neg hne3, if_neg hne4, ih]
    all_goals omega
  | [a, b, c] => fun h => by
    have ha : a < 256 := h a (by simp)
    have hb : b < 256 := h b (by simp)
    have hc : c < 256 := h c (by simp)
    have h1 := b64DecChar_b64Char (a / 4) (by omega)
    have h2 := b64DecChar_b64Char (a % 4 * 16 + b / 16) (by omega)
    have h3 := b64DecChar_b64Char (b % 16 * 4 + c / 64) (by omega)
    have h4 := b64DecChar_b64Char (c % 64) (by omega)
    have hne3 := b64Char_ne_61 (b % 16 * 4 + c / 64) (by omega)
    have hne4 := b64Char_ne_61 (c % 64) (by omega)
    show b64Decode (b64Char (a / 4) :: b64Char (a % 4 * 16 + b / 16) ::
        b64Char (b % 16 * 4 + c / 64) :: b64Char (c % 64) :: b64Encode []) =
      some [a, b, c]
    simp [b64Decode, h1, h2, h3, h4, if_neg hne3, if_neg hne4]
    all_goals omega

/-- Base64 encoding produces only byte values. -/
theorem b64Encode_bytes : ∀ (l : List Nat), ∀ x ∈ b64Encode l, x < 256
  | [] => by intro x hx; simp [b64Encode] at hx
  | [a] => by
    intro x hx
    simp only [b64Encode, List.mem_cons, List.not_mem_nil, or_false] at hx
    rcases hx with h | h | h | h <;> subst h <;> first | exact b64Char_lt_256 _ | omega
  | [a, b] => by
    intro x hx
    simp only [b64Encode, List.mem_cons, List.not_mem_nil, or_false] at hx
    rcases hx with h | h | h | h <;> subst h <;> first | exact b64Char_lt_256 _ | omega
  | a :: b :: c :: rest => by
    intro x hx
    simp only [b64Encode, List.mem_cons] at hx
    rcases hx with h | h | h | h | h
    · subst h; exact b64Char_lt_256 _
    · subst h; exact b64Char_lt_256 _
    · subst h; exact b64Char_lt_256 _
    · subst h; exact b64Char_lt_256 _
    · exact b64Encode_bytes rest x h

/-- Base64 encoding is injective on byte inputs. -/
theorem b64Encode_inj (l m : List Nat) (hl : ∀ x ∈ l, x < 256) (hm : ∀ x ∈ m, x < 256)
    (h : b64Encode l = b64Encode m) : l = m := by
  have h1 := b64_roundtrip l hl
  rw [h, b64_roundtrip m hm] at h1
  exact (Option.some.inj h1).symm

theorem natDigits_digits (n : Nat) : ∀ d ∈ natDigits n, 48 ≤ d ∧ d ≤ 57 := by
  induction n using Nat.strong_induction_on with
  | _ n ih =>
    rw [natDigits]
    split_ifs with h
    · intro d hd
      simp only [List.mem_singleton] at hd
      omega
    · intro d hd
      rcases List.mem_append.mp hd with h1 | h1
      · exact ih (n / 10) (Nat.div_lt_self (by omega) (by omega)) d h1
      · simp only [List.mem_singleton] at h1
        have : n % 10 < 10 := Nat.mod_lt _ (by omega)
        omega

theorem natDigits_ne_nil (n : Nat) : natDigits n ≠ [] := by
  rw [natDigits]
  split_ifs <;> simp

theorem digitsVal_append_digit (xs : List Nat) (d : Nat) :
    digitsVal (xs ++ [d]) = digitsVal xs * 10 + (d - 48) := by
  unfold digitsVal
  rw [List.foldl_append]
  rfl

theorem digitsVal_natDigits (n : Nat) : digitsVal (natDigits n) = n := by
  induction n using Nat.strong_induction_on with
  | _ n ih =>
    rw [natDigits]
    split_ifs with h
    · show 0 * 10 + (48 + n - 48) = n
      omega
    · rw [digitsVal_append_digit, ih (n / 10) (Nat.div_lt_self (by omega) (by omega))]
      omega

theorem renderInt_no_colon (i : Int) : 58 ∉ renderInt i := by
  unfold renderInt
  split_ifs with h
  · intro hc
    rcases List.mem_cons.mp hc with h1 | h1
    · omega
    · have := natDigits_digits _ _ h1
      omega
  · intro hc
    have := natDigits_digits _ _ hc
    omega

theorem renderInt_bytes (i : Int) : ∀ x ∈ renderInt i, x < 256 := by
  unfold renderInt
  split_ifs with h
  · intro x hx
    rcases List.mem_cons.mp hx with h1 | h1
    · omega
    · have := natDigits_digits _ _ h1
      omega
  · intro x hx
    have := natDigits_digits _ _ hx
    omega

theorem natDigits_all_isDigit (n : Nat) : (natDigits n).all isDigit = true := by
  rw [List.all_eq_true]
  intro d hd
  have := natDigits_digits n d hd
  simp only [isDigit, Bool.and_eq_true, decide_eq_true_eq]
  omega

/-- `strconv.ParseInt` inverts `fmt.Sprintf %d` on the int64 range. -/
theorem parseIntGo_renderInt (i : Int) (h1 : -(2 ^ 63) ≤ i) (h2 : i ≤ 2 ^ 63 - 1) :
    parseIntGo (renderInt i) = some i := by
  unfold renderInt
  split_ifs with hneg
  · show parseIntDigits true (natDigits (-i).toNat) = some i
    unfold parseIntDigits
    rw [if_neg (natDigits_ne_nil _), if_pos (natDigits_all_isDigit _)]
    show (if -(2 ^ 63) ≤ -((digitsVal (natDigits (-i).toNat) : Nat) : Int) ∧
            -((digitsVal (natDigits (-i).toNat) : Nat) : Int) ≤ 2 ^ 63 - 1 then
          some (-((digitsVal (natDigits (-i).toNat) : Nat) : Int)) else none) = some i
    rw [digitsVal_natDigits]
    have hv : -(((-i).toNat : Nat) : Int) = i := by omega
    rw [hv, if_pos (And.intro h1 h2)]
  · obtain ⟨c, rest, hds⟩ := List.exists_cons_of_ne_nil (natDigits_ne_nil i.toNat)
    have hcd : 48 ≤ c ∧ c ≤ 57 := natDigits_digits i.toNat c (by rw [hds]; simp)
    rw [hds]
    show (if c = 45 then parseIntDigits true (c :: rest).tail
          else if c = 43 then parseIntDigits false (c :: rest).tail
          else parseIntDigits false (c :: rest)) = some i
    rw [if_neg (by omega : ¬ c = 45), if_neg (by omega : ¬ c = 43), ← hds]
    unfold parseIntDigits
    rw [if_neg (natDigits_ne_nil _), if_pos (natDigits_all_isDigit _)]
    show (if -(2 ^ 63) ≤ ((digitsVal (natDigits i.toNat) : Nat) : Int) ∧
            ((digitsVal (natDigits i.toNat) : Nat) : Int) ≤ 2 ^ 63 - 1 then
          some (((digitsVal (natDigits i.toNat) : Nat) : Int)) else none) = some i
    rw [digitsVal_natDigits]
    have hv : ((i.toNat : Nat) : Int) = i := by omega
    rw [hv, if_pos (And.intro h1 h2)]

theorem splitOnce_append (u v : List Nat) (h : 58 ∉ u) :
    splitOnce 58 (u ++ 58 :: v) = some (u, v) := by
  induction u with
  | nil => simp [splitOnce]
  | cons c cs ih =>
    have hc : ¬ c = 58 := fun e => h (by simp [e])
    have hcs : 58 ∉ cs := fun hx => h (List.mem_cons_of_mem _ hx)
    simp only [List.cons_append, splitOnce, List.append_eq, if_neg hc, ih hcs]

theorem splitN3_parts (u d m : List Nat) (hu : 58 ∉ u) (hd : 58 ∉ d) :
    splitN3 58 (u ++ 58 :: (d ++ 58 :: m)) = [u, d, m] := by
  simp only [splitN3, splitOnce_append u _ hu, splitOnce_append d m hd]

/-- Every branch of `VerifyAuthToken` yields either the opaque failure
`(false, "")` or a success carrying the token's username. -/
theorem verifyAuthToken_shape (mac : List Nat → List Nat → List Nat) (token : List Nat)
    (users : List Nat → Option (List Nat)) (maxAge now : Int) :
    verifyAuthToken mac token users maxAge now = (false, []) ∨
    ∃ u, verifyAuthToken mac token users maxAge now = (true, u) := by
  unfold verifyAuthToken
  repeat' split
  all_goals first | exact Or.inl rfl | exact Or.inr ⟨_, rfl⟩

/-- The allocation counter walks linearly while it stays below the 16-bit
wrap: starting from a nonzero state, `k` allocations yield ids
`st, st+1, …, st+k-1`. -/
theorem allocIds_range (st k : Nat) (h1 : 1 ≤ st) (h2 : st + k ≤ 65536) :
    allocIds st k = List.range' st k := by
  induction k generalizing st with
  | zero => rfl
  | succ k ih =>
    have hlt : st < 65536 := by omega
    have h32 : st + 1 < 4294967296 := by omega
    have step : allocChanID st = (st + 1, st) := by
      unfold allocChanID
      rw [Nat.mod_eq_of_lt hlt, Nat.mod_eq_of_lt h32]
      simp only [if_neg (by omega : ¬ st = 0)]
    rw [List.range'_succ]
    show (allocChanID st).2 :: allocIds (allocChanID st).1 k = st :: List.range' (st + 1) k
    rw [step]
    exact congrArg (st :: ·) (ih (st + 1) (by omega) (by omega))

/-- A byte-case-equivalent pair of bytes upper-cases identically. -/
theorem byteCaseEq_upper (a b : Nat) (h : byteCaseEq a b = true) :
    asciiUpper a = asciiUpper b := by
  simp only [byteCaseEq, Bool.or_eq_true, Bool.and_eq_true, beq_iff_eq,
    decide_eq_true_eq] at h
  unfold asciiUpper
  split_ifs <;> omega

/-- Case-equivalent byte strings upper-case identically. -/
theorem strCaseEq_upper (l m : List Nat) (h : strCaseEq l m = true) :
    strUpper l = strUpper m := by
  induction l generalizing m with
  | nil => cases m with
    | nil => rfl
    | cons y ys => simp [strCaseEq] at h
  | cons x xs ih =>
    cases m with
    | nil => simp [strCaseEq] at h
    | cons y ys =>
      simp only [strCaseEq, Bool.and_eq_true] at h
      simp only [strUpper, List.map_cons]
      exact congrArg₂ (· :: ·) (byteCaseEq_upper x y h.1) (ih ys h.2)

end SmtpTunnel

namespace SmtpTunnel

/-! ## Claim theorems -/

/-- C1 counterexample: the claim quantifies over every principal name, but a
name containing ':' (here "a:b") makes the generated token unparseable —
`SplitN` cuts at the name's own colon, the timestamp field becomes "b" and
parsing fails — so a fresh token for a known principal with the correct
stored secret is rejected, refuting the claimed equivalence. -/
theorem auth_token_colon_name_rejected :
    verifyAuthToken (fun _ _ => [0]) (generateAuthToken (fun _ _ => [0]) [115] [97, 58, 98] 0)
        (fun u => if u = [97, 58, 98] then some [115] else none) 300 0 = (false, []) ∧
    ((0 - 0 : Int)).natAbs ≤ 300 ∧
    (fun u => if u = [97, 58, 98] then some [115] else none) [97, 58, 98] = some [115] := by
  have h0 : natDigits 0 = [48] := by rw [natDigits]; norm_num
  have hr : renderInt 0 = [48] := by
    unfold renderInt
    rw [if_neg (by norm_num)]
    simpa using h0
  have hg : generateAuthToken (fun _ _ => [0]) [115] [97, 58, 98] 0 =
      b64Encode [97, 58, 98, 58, 48, 58, 65, 65, 61, 61] := by
    unfold generateAuthToken
    rw [hr]
    rfl
  refine ⟨?_, by decide, by decide⟩
  rw [hg]
  rfl

/-- C1 (amended): for every principal name free of ':' bytes, secret, and
int64 timestamp T, the token produced by `GenerateAuthToken(S, N, T)`
passes `VerifyAuthToken` against a user table with max_age 300 iff the
wrapped int64 difference `now − T` (as Go computes it) has absolute value
at most 300 and the table maps N to a secret whose MAC agrees with S (so,
for a MAC binding the secret, exactly when the stored secret is S);
whenever the true difference is representable in int64 — every realistic
clock pair — the wrapped difference is the exact one, giving the claim's
`|now − T| ≤ 300` reading.  Every verification failure yields the opaque
result `(false, "")`.  (Constant-time comparison is a timing property
outside this embedding; the code delegates it to `hmac.Equal`.) -/
theorem auth_token_roundtrip (mac : List Nat → List Nat → List Nat)
    (users : List Nat → Option (List Nat)) (secret username : List Nat) (ts now : Int)
    (hU : ∀ x ∈ username, x < 256) (hC : 58 ∉ username)
    (hTs1 : -(2 ^ 63) ≤ ts) (hTs2 : ts ≤ 2 ^ 63 - 1)
    (hNow1 : -(2 ^ 63) ≤ now) (hNow2 : now ≤ 2 ^ 63 - 1)
    (hM : ∀ s, ∀ x ∈ mac s (authMsg username ts), x < 256)
    (hInj : ∀ s, users username = some s →
      mac s (authMsg username ts) = mac secret (authMsg username ts) → s = secret) :
    ((verifyAuthToken mac (generateAuthToken mac secret username ts) users 300 now).1 = true ↔
      ((int64Wrap (now - ts)).natAbs ≤ 300 ∧ users username = some secret)) ∧
    ((now - ts).natAbs < 2 ^ 63 → int64Wrap (now - ts) = now - ts) ∧
    (∀ token maxAge now2, (verifyAuthToken mac token users maxAge now2).1 = false →
      verifyAuthToken mac token users maxAge now2 = (false, [])) := by
  have hform : ∀ s, generateAuthToken mac s username ts =
      b64Encode (username ++ 58 ::
        (renderInt ts ++ 58 :: b64Encode (mac s (authMsg username ts)))) := by
    intro s
    unfold generateAuthToken
    congr 1
    simp [List.append_assoc]
  have hBytesInner : ∀ s,
      ∀ x ∈ username ++ 58 :: (renderInt ts ++ 58 :: b64Encode (mac s (authMsg username ts))),
        x < 256 := by
    intro s x hx
    rcases List.mem_append.mp hx with h | h
    · exact hU x h
    · rcases List.mem_cons.mp h with h | h
      · omega
      · rcases List.mem_append.mp h with h | h
        · exact renderInt_bytes ts x h
        · rcases List.mem_cons.mp h with h | h
          · omega
          · exact b64Encode_bytes _ x h
  have hdec : b64Decode (generateAuthToken mac secret username ts) =
      some (username ++ 58 ::
        (renderInt ts ++ 58 :: b64Encode (mac secret (authMsg username ts)))) := by
    rw [hform]
    exact b64_roundtrip _ (hBytesInner secret)
  have hsplit : splitN3 58 (username ++ 58 ::
      (renderInt ts ++ 58 :: b64Encode (mac secret (authMsg username ts)))) =
      [username, renderInt ts, b64Encode (mac secret (authMsg username ts))] :=
    splitN3_parts username (renderInt ts) _ hC (renderInt_no_colon ts)
  have hparse : parseIntGo (renderInt ts) = some ts := parseIntGo_renderInt ts hTs1 hTs2
  refine ⟨?_, ?_, ?_⟩
  · simp only [verifyAuthToken, hdec, hsplit, hparse]
    by_cases hfresh : (((int64Wrap (now - ts)).natAbs : Nat) : Int) > 300
    · rw [if_pos hfresh]
      simp only [Bool.false_eq_true, false_iff, not_and]
      intro hle
      omega
    · rw [if_neg hfresh]
      cases hu : users username with
      | none =>
        simp only [Bool.false_eq_true, false_iff, not_and]
        intro _
        simp
      | some s =>
        show (if generateAuthToken mac secret username ts =
              generateAuthToken mac s username ts then (true, username)
            else ((false, []) : Bool × List Nat)).1 = true ↔
          (int64Wrap (now - ts)).natAbs ≤ 300 ∧ some s = some secret
        by_cases heq : generateAuthToken mac secret username ts =
            generateAuthToken mac s username ts
        · rw [if_pos heq]
          have hsec : s = secret := by
            have hin : username ++ 58 ::
                (renderInt ts ++ 58 :: b64Encode (mac secret (authMsg username ts))) =
                username ++ 58 ::
                (renderInt ts ++ 58 :: b64Encode (mac s (authMsg username ts))) := by
              have := heq
              rw [hform secret, hform s] at this
              exact b64Encode_inj _ _ (hBytesInner secret) (hBytesInner s) this
            have h1 := List.append_cancel_left hin
            have h2 := (List.cons.inj h1).2
            have h3 := List.append_cancel_left h2
            have h4 := (List.cons.inj h3).2
            exact hInj s hu (b64Encode_inj _ _ (hM s) (hM secret) h4.symm)
          subst hsec
          constructor
          · intro _
            exact ⟨by omega, rfl⟩
          · intro _
            rfl
        · rw [if_neg heq]
          constructor
          · intro hfalse
            simp at hfalse
          · rintro ⟨_, habs⟩
            have hss : s = secret := Option.some.inj habs
            subst hss
            exact absurd rfl heq
  · intro hrep
    unfold int64Wrap
    omega
  · intro token maxAge now2 hf
    rcases verifyAuthToken_shape mac token users maxAge now2 with h | ⟨u, h⟩
    · exact h
    · rw [h] at hf
      simp at hf

/-- C1 witness: the amended equivalence applied at principal "alice",
secret [7], timestamp 100, now 150, a one-entry user table and a concrete
(constant) MAC stand-in. -/
theorem auth_token_roundtrip_witness :
    (verifyAuthToken (fun _ _ => [0])
        (generateAuthToken (fun _ _ => [0]) [7] (strBytes "alice") 100)
        (fun u => if u = strBytes "alice" then some [7] else none) 300 150).1 = true ↔
      ((int64Wrap ((150 : Int) - 100)).natAbs ≤ 300 ∧
        (fun u => if u = strBytes "alice" then some [7] else none) (strBytes "alice") =
          some [7]) :=
  (auth_token_roundtrip (fun _ _ => [0])
    (fun u => if u = strBytes "alice" then some [7] else none) [7] (strBytes "alice") 100 150
    (by decide) (by decide) (by norm_num) (by norm_num) (by norm_num) (by norm_num)
    (fun s x hx => by simp only [List.mem_singleton] at hx; omega)
    (fun s h _ => by
      simp at h
      exact h.symm)).1

/-- C2 counterexample: the id allocator of `Client.OpenChannel` skips only 0,
so on a fresh session (counter initialised to 1) the 65535th `OpenChannel`
call returns the reserved PING id 0xFFFF, contradicting the claim that no
returned id is ever 0xFFFF. -/
theorem openChannel_returns_reserved_id : 65535 ∈ allocIds 1 65535 := by
  rw [allocIds_range 1 65535 (by omega) (by omega)]
  rw [List.mem_range'_1]
  omega

/-- C2 (amended): on a fresh client session the first 65534 `OpenChannel`
allocations return the ids 1, 2, …, 65534 — pairwise distinct and never 0
nor 0xFFFF; the allocator skips only 0, so the 65535th allocation returns
0xFFFF and ids repeat once the 16-bit counter wraps. -/
theorem openChannel_ids_distinct_first_65534 :
    allocIds 1 65534 = List.range' 1 65534 ∧
    (allocIds 1 65534).Nodup ∧
    ∀ id ∈ allocIds 1 65534, id ≠ 0 ∧ id ≠ 65535 := by
  have h := allocIds_range 1 65534 (by omega) (by omega)
  refine ⟨h, ?_, ?_⟩
  · rw [h]; exact List.nodup_range' 1 65534
  · rw [h]
    intro id hid
    rw [List.mem_range'_1] at hid
    omega

/-- C2 witness: the per-id facts of the amended theorem applied at the
concrete id 1. -/
theorem openChannel_ids_distinct_first_65534_witness :
    1 ∈ allocIds 1 65534 ∧ (1 : Nat) ≠ 0 ∧ (1 : Nat) ≠ 65535 := by
  have hmem : 1 ∈ allocIds 1 65534 := by
    rw [allocIds_range 1 65534 (by omega) (by omega), List.mem_range'_1]
    omega
  exact ⟨hmem, openChannel_ids_distinct_first_65534.2.2 1 hmem⟩

/-- C4: the HKDF key schedule is a pure function of the shared secret (and
the fixed salt "smtp-tunnel-v1" and info "tunnel-keys"), and for the same
secret the client instance's send key is the server instance's recv key
(the first 32 derived bytes) while the client's recv key is the server's
send key (the remaining bytes from offset 32). -/
theorem key_schedule_directional
    (hkdf64 : List Nat → List Nat → List Nat → List Nat) (secret : List Nat) :
    (deriveKeys hkdf64 secret false).sendKey = (deriveKeys hkdf64 secret true).recvKey ∧
    (deriveKeys hkdf64 secret false).recvKey = (deriveKeys hkdf64 secret true).sendKey ∧
    (deriveKeys hkdf64 secret false).sendKey =
      (hkdf64 secret (strBytes "smtp-tunnel-v1") (strBytes "tunnel-keys")).take 32 ∧
    (deriveKeys hkdf64 secret false).recvKey =
      (hkdf64 secret (strBytes "smtp-tunnel-v1") (strBytes "tunnel-keys")).drop 32 ∧
    ∀ secret2, secret2 = secret →
      ∀ b, deriveKeys hkdf64 secret2 b = deriveKeys hkdf64 secret b := by
  refine ⟨rfl, rfl, rfl, rfl, ?_⟩
  intro s2 h b
  rw [h]

/-- C4 witness: the theorem applied at a concrete HKDF stand-in and secret,
discharging the determinism hypothesis at a concrete equal secret. -/
theorem key_schedule_directional_witness :
    (deriveKeys (fun ikm _ _ => ikm ++ ikm) [1, 2] false).sendKey =
      (deriveKeys (fun ikm _ _ => ikm ++ ikm) [1, 2] true).recvKey ∧
    deriveKeys (fun ikm _ _ => ikm ++ ikm) [1, 2] true =
      deriveKeys (fun ikm _ _ => ikm ++ ikm) [1, 2] true := by
  have h := key_schedule_directional (fun ikm _ _ => ikm ++ ikm) [1, 2]
  exact ⟨h.1, h.2.2.2.2 [1, 2] rfl true⟩

/-- C8: closing a channel is idempotent on both sides: a close of a present
id removes it from the table, marks it closed and closes its socket, and a
second close of the same id is a complete no-op (same table, no effects). -/
theorem close_channel_idempotent :
    (∀ (t : ChanTable) id, closeChannel (closeChannel t id).1 id = ((closeChannel t id).1, [])) ∧
    (∀ (t : ChanTable) id ch, t id = some ch →
      closeChannel t id = (Function.update t id none, [.markClosed id, .closeSocket id]) ∧
      Function.update t id none id = none) ∧
    (∀ (t : CChanTable) id,
      clientCloseChannel (clientCloseChannel t id).1 id = ((clientCloseChannel t id).1, [])) ∧
    (∀ (t : CChanTable) id cc, t id = some cc →
      clientCloseChannel t id = (Function.update t id none, [.markClosed id, .closeSocket id]) ∧
      Function.update t id none id = none) := by
  refine ⟨fun t id => ?_, fun t id ch h => ?_, fun t id => ?_, fun t id cc h => ?_⟩
  · unfold closeChannel
    cases h : t id with
    | none => simp [h]
    | some ch => simp [h, Function.update_same]
  · constructor
    · unfold closeChannel; rw [h]
    · exact Function.update_same id none t
  · unfold clientCloseChannel
    cases h : t id with
    | none => simp [h]
    | some cc => simp [h, Function.update_same]
  · constructor
    · unfold clientCloseChannel; rw [h]
    · exact Function.update_same id none t

/-- C8 witness: the idempotence theorem applied at a concrete one-entry
table on both sides. -/
theorem close_channel_idempotent_witness :
    closeChannel
      (closeChannel (fun i => if i = 4 then some ⟨4, [2], 80, false⟩ else none) 4).1 4 =
      ((closeChannel (fun i => if i = 4 then some ⟨4, [2], 80, false⟩ else none) 4).1, []) ∧
    closeChannel (fun i => if i = 4 then some ⟨4, [2], 80, false⟩ else none) 4 =
      (Function.update (fun i => if i = 4 then some ⟨4, [2], 80, false⟩ else none) 4 none,
       [.markClosed 4, .closeSocket 4]) ∧
    clientCloseChannel
      (clientCloseChannel (fun i => if i = 4 then some ⟨4, false⟩ else none) 4).1 4 =
      ((clientCloseChannel (fun i => if i = 4 then some ⟨4, false⟩ else none) 4).1, []) :=
  have h := close_channel_idempotent
  ⟨h.1 (fun i => if i = 4 then some ⟨4, [2], 80, false⟩ else none) 4,
   (h.2.1 (fun i => if i = 4 then some ⟨4, [2], 80, false⟩ else none) 4 ⟨4, [2], 80, false⟩
     (by decide)).1,
   h.2.2.1 (fun i => if i = 4 then some ⟨4, false⟩ else none) 4⟩

/-- C9: the supervisor sleeps the current delay on each failed connect and
then doubles it with a clamp at the configured maximum, so no sleep ever
exceeds the maximum (when the initial delay is within it); a successful
connect resets the delay to the initial value; concretely, with initial
50 ms and cap 200 ms, three failures sleep 50, 100, 200 ms, and after a
success the next failure sleeps 50 ms again. -/
theorem supervisor_backoff :
    (∀ init maxd, init ≤ maxd → ∀ cur, cur ≤ maxd →
      ∀ outs, ∀ d ∈ supRun init maxd cur outs, d ≤ maxd) ∧
    supRun 50 200 50 [.fail, .fail, .fail, .success, .fail] = [50, 100, 200, 50] ∧
    (∀ init maxd cur, supStep init maxd cur .success = (init, []) ∧
      supStep init maxd cur .fail = (if cur * 2 > maxd then maxd else cur * 2, [cur])) := by
  refine ⟨?_, rfl, fun init maxd cur => ⟨rfl, rfl⟩⟩
  intro init maxd hinit cur hcur outs
  induction outs generalizing cur with
  | nil => intro d hd; simp [supRun] at hd
  | cons o rest ih =>
    intro d hd
    cases o with
    | fail =>
      simp only [supRun, supStep, List.cons_append, List.nil_append, List.mem_cons] at hd
      rcases hd with h | h
      · omega
      · refine ih (if cur * 2 > maxd then maxd else cur * 2) ?_ d h
        split_ifs <;> omega
    | success =>
      simp only [supRun, supStep, List.nil_append] at hd
      exact ih init hinit d hd

/-- C9 witness: the cap bound applied at the concrete 50/200 configuration
with one failure. -/
theorem supervisor_backoff_witness :
    (50 ≤ 200 ∧ ∀ d ∈ supRun 50 200 50 [.fail, .fail, .fail, .success, .fail], d ≤ 200) ∧
    supRun 50 200 50 [.fail, .fail, .fail, .success, .fail] = [50, 100, 200, 50] :=
  have h := supervisor_backoff
  ⟨⟨by omega, h.1 50 200 (by omega) 50 (by omega) [.fail, .fail, .fail, .success, .fail]⟩,
   h.2.1⟩

/-- C10: a DATA frame whose channel id is unknown to the receiver, or whose
channel is marked closed, is silently discarded on both sides: no socket
write, no reply frame, and the channel table is unchanged. -/
theorem data_unknown_channel_discarded :
    (∀ (w : Bool) (t : ChanTable) f, t f.channelID = none → handleData w t f = (t, [])) ∧
    (∀ (w : Bool) (t : ChanTable) f ch, t f.channelID = some ch → ch.closed = true →
      handleData w t f = (t, [])) ∧
    (∀ (t : CChanTable) f, t f.channelID = none → clientHandleData t f = (t, [])) ∧
    (∀ (t : CChanTable) f cc, t f.channelID = some cc → cc.closed = true →
      clientHandleData t f = (t, [])) := by
  refine ⟨fun w t f h => ?_, fun w t f ch h hc => ?_, fun t f h => ?_, fun t f cc h hc => ?_⟩
  · unfold handleData; rw [h]
  · unfold handleData; rw [h]; simp [hc]
  · unfold clientHandleData; rw [h]
  · unfold clientHandleData; rw [h]; simp [hc]

/-- C5 counterexample: the line "binary" is ASCII-case-equal to the expected
verb BINARY, yet `ServerHandshake` rejects it (the BINARY step compares the
raw line, without case folding), contradicting the claim that every expected
verb is matched case-insensitively. -/
theorem binary_verb_case_sensitive :
    strCaseEq (strBytes "binary") (strBytes "BINARY") = true ∧
    serverExpectBinary (strBytes "binary") = false := by decide

/-- C5 (amended): in the server handshake, EHLO/HELO, STARTTLS and AUTH are
matched ASCII-case-insensitively (any line case-equal to the verb, with any
argument text after the verb for the prefix-matched ones, is accepted), but
BINARY is matched byte-exactly; client-side reply-code matching is an exact
byte-prefix test. -/
theorem verb_case_matching :
    (∀ l rest, strCaseEq l (strBytes "EHLO") = true → serverExpectEhlo (l ++ rest) = true) ∧
    (∀ l rest, strCaseEq l (strBytes "HELO") = true → serverExpectEhlo (l ++ rest) = true) ∧
    (∀ l, strCaseEq l (strBytes "STARTTLS") = true → serverExpectStarttls l = true) ∧
    (∀ l rest, strCaseEq l (strBytes "AUTH") = true → serverExpectAuth (l ++ rest) = true) ∧
    (∀ l, serverExpectBinary l = true ↔ l = strBytes "BINARY") ∧
    (∀ code line, clientExpectCode code line = true ↔ ∃ rest, line = code ++ rest) := by
  have hup : ∀ (l m : List Nat) (s : String), strCaseEq l (strBytes s) = true →
      strUpper (strBytes s) = strBytes s → strUpper l ++ m = strBytes s ++ m := by
    intro l m s h hs
    rw [strCaseEq_upper l (strBytes s) h, hs]
  refine ⟨?_, ?_, ?_, ?_, ?_, ?_⟩
  · intro l rest h
    have : strUpper (l ++ rest) = strBytes "EHLO" ++ strUpper rest := by
      simp only [strUpper, List.map_append]
      exact hup l _ "EHLO" h (by decide)
    simp only [serverExpectEhlo, this, Bool.or_eq_true, List.isPrefixOf_iff_prefix]
    exact Or.inl (List.prefix_append _ _)
  · intro l rest h
    have : strUpper (l ++ rest) = strBytes "HELO" ++ strUpper rest := by
      simp only [strUpper, List.map_append]
      exact hup l _ "HELO" h (by decide)
    simp only [serverExpectEhlo, this, Bool.or_eq_true, List.isPrefixOf_iff_prefix]
    exact Or.inr (List.prefix_append _ _)
  · intro l h
    have : strUpper l = strBytes "STARTTLS" := by
      rw [strCaseEq_upper l _ h]; decide
    simp only [serverExpectStarttls, this, beq_self_eq_true]
  · intro l rest h
    have : strUpper (l ++ rest) = strBytes "AUTH" ++ strUpper rest := by
      simp only [strUpper, List.map_append]
      exact hup l _ "AUTH" h (by decide)
    simp only [serverExpectAuth, this, List.isPrefixOf_iff_prefix]
    exact List.prefix_append _ _
  · intro l
    simp only [serverExpectBinary, beq_iff_eq]
  · intro code line
    simp only [clientExpectCode, List.isPrefixOf_iff_prefix]
    constructor
    · rintro ⟨rest, hr⟩
      exact ⟨rest, hr.symm⟩
    · rintro ⟨rest, hr⟩
      exact ⟨rest, hr.symm⟩

/-- C5 witness: the case-insensitive steps applied at concrete lower-case
lines and the exact steps at concrete literals. -/
theorem verb_case_matching_witness :
    serverExpectEhlo (strBytes "ehlo" ++ strBytes " example.com") = true ∧
    serverExpectStarttls (strBytes "starttls") = true ∧
    serverExpectAuth (strBytes "auth" ++ strBytes " PLAIN xyz") = true ∧
    serverExpectBinary (strBytes "BINARY") = true ∧
    clientExpectCode (strBytes "235") (strBytes "235" ++ strBytes " ok") = true :=
  have h := verb_case_matching
  ⟨h.1 (strBytes "ehlo") (strBytes " example.com") (by decide),
   h.2.2.1 (strBytes "starttls") (by decide),
   h.2.2.2.1 (strBytes "auth") (strBytes " PLAIN xyz") (by decide),
   (h.2.2.2.2.1 (strBytes "BINARY")).mpr rfl,
   (h.2.2.2.2.2 (strBytes "235") _).mpr ⟨strBytes " ok", rfl⟩⟩

/-- C10 witness: a DATA frame for absent channel 9 and for a closed channel 4,
discarded on both sides at concrete tables. -/
theorem data_unknown_channel_discarded_witness :
    handleData true (fun _ => none) ⟨frameData, 9, [1]⟩ = ((fun _ => none), []) ∧
    handleData true (fun i => if i = 4 then some ⟨4, [2], 80, true⟩ else none)
        ⟨frameData, 4, [1]⟩ =
      ((fun i => if i = 4 then some ⟨4, [2], 80, true⟩ else none), []) ∧
    clientHandleData (fun _ => none) ⟨frameData, 9, [1]⟩ = ((fun _ => none), []) :=
  have h := data_unknown_channel_discarded
  ⟨h.1 true (fun _ => none) ⟨frameData, 9, [1]⟩ rfl,
   h.2.1 true (fun i => if i = 4 then some ⟨4, [2], 80, true⟩ else none)
     ⟨frameData, 4, [1]⟩ ⟨4, [2], 80, true⟩ (by decide) rfl,
   h.2.2.1 (fun _ => none) ⟨frameData, 9, [1]⟩ rfl⟩

end SmtpTunnel
